import Mathlib

/-!
# TopoLens — verification of the streaming ingestion / normalization / aggregation pipeline

Shallow embedding of the TopoLens core pipeline:

* `src/utils/ris.ts` — `normalizePrefixes`, `normalizeAsPath`, `inferOriginAs`,
  `coerceAsn`, `extractUpdates` (the Update Normalizer);
* `src/workers/graphWorker.ts` — `trackNode`, `trackLink`, `buildGraph`
  (the Graph Aggregator);
* `src/hooks/useGraphData.ts` — the request-counter staleness guard;
* `src/hooks/useRipeRis.ts` — the bounded in-memory update window;
* `src/workers/fetchWorker.ts` — the reconnect-timer state machine.

JavaScript runtime values produced by `JSON.parse` are modelled by the `Json`
inductive below; numbers are modelled as integers (every number appearing in
the verified code paths is integral).  JS `undefined` is modelled as `Option`.
JS `Map` (which preserves insertion order) is modelled as an association list
updated in place and extended at the tail.  `Date.now()` is passed in as an
explicit `now` parameter.
-/

set_option maxHeartbeats 1000000

namespace TopoLens

/-- A JSON value as produced by `JSON.parse`.  Object keys are assumed unique
(`JSON.parse` keeps one binding per key). -/
inductive Json where
  | null : Json
  | boolean : Bool → Json
  | num : Int → Json
  | str : String → Json
  | arr : List Json → Json
  | obj : List (String × Json) → Json
deriving Inhabited

namespace Json

/-- Property access `j["k"]`: `none` models JS `undefined` (missing field, or
access on a non-object). -/
def get (j : Json) (k : String) : Option Json :=
  match j with
  | .obj fields => fields.lookup k
  | _ => none

/-- JS truthiness of a value (`NaN` cannot arise from `JSON.parse`). -/
def truthy : Json → Bool
  | .null => false
  | .boolean b => b
  | .num n => n != 0
  | .str s => s != ""
  | .arr _ => true
  | .obj _ => true

/-- `typeof j === "object"` (true for objects, arrays and `null`). -/
def isObjectType : Json → Bool
  | .obj _ => true
  | .arr _ => true
  | .null => true
  | _ => false

end Json

/-- JS `String(x)` conversion (array members that are `null` render as the
empty string, as in JS `Array.prototype.join`). -/
def jsToString : Json → String
  | .null => "null"
  | .boolean true => "true"
  | .boolean false => "false"
  | .num n => toString n
  | .str s => s
  | .obj _ => "[object Object]"
  | .arr xs =>
      String.intercalate ","
        (xs.attach.map (fun x =>
          match x with
          | ⟨.null, _⟩ => ""
          | ⟨y, _⟩ => jsToString y))

/-- Digit run at the front of a character list, read as a natural number;
`none` when there is no leading digit (JS `NaN`). -/
def leadingDigits (cs : List Char) : Option Nat :=
  let ds := cs.takeWhile Char.isDigit
  if ds.isEmpty then none
  else some (ds.foldl (fun acc c => acc * 10 + (c.toNat - '0'.toNat)) 0)

/-- `Number.parseInt(s, 10)`: skip leading whitespace, optional sign, longest
digit prefix; `none` models `NaN`. -/
def parseIntJS (s : String) : Option Int :=
  let cs := s.data.dropWhile (fun c => c = ' ' || c = '\t' || c = '\n' || c = '\r')
  match cs with
  | '-' :: rest => (leadingDigits rest).map (fun n => -(n : Int))
  | '+' :: rest => (leadingDigits rest).map (fun n => (n : Int))
  | _ => (leadingDigits cs).map (fun n => (n : Int))

/-- `UpdateKind` from `src/utils/ris.ts`. -/
inductive UpdateKind where
  | announce : UpdateKind
  | withdraw : UpdateKind
deriving Repr, DecidableEq, Inhabited

/-- `RipeUpdate` from `src/utils/ris.ts` (the spec's `CanonicalUpdate`).
Optional / nullable fields are `Option`s.  The TS field named after the routed
address block is called `pfx` here because its TS name is a Lean keyword. -/
structure RipeUpdate where
  kind : UpdateKind
  timestamp : Int
  receivedAt : Int
  pfx : String
  peer : String
  host : Option String
  peerAsn : Option Int
  originAs : Option Int
  nextHop : Option String
  asPath : Option String
deriving Repr, DecidableEq, Inhabited

/-- JS `Set` insertion order: first occurrence of each element is kept. -/
def insertUnique (acc : List String) (s : String) : List String :=
  if s ∈ acc then acc else acc ++ [s]

/-- Contents of a JS `Set` built by inserting `xs` left to right. -/
def dedupFirst (xs : List String) : List String :=
  xs.foldl insertUnique []

/-- The `prefixes` array of an announcement entry (empty when absent or not an
array). -/
def prefixesArr (entry : Json) : List Json :=
  match entry.get "prefixes" with
  | some (.arr xs) => xs
  | _ => []

/-- The string carried by a JSON value, when it is a string
(`typeof x === "string"` plus the value). -/
def jsonStr? : Json → Option String
  | .str s => some s
  | _ => none

/-- `normalizePrefixes` from `src/utils/ris.ts`: the `prefix` field (when a
string) followed by the string members of the `prefixes` array, first
occurrence of each prefix kept. -/
def normalizePrefixes (entry : Json) : List String :=
  let fromField : List String :=
    match entry.get "prefix" with
    | some (.str s) => [s]
    | _ => []
  let fromArr : List String := (prefixesArr entry).filterMap jsonStr?
  dedupFirst (fromField ++ fromArr)

/-- The member list `normalizeAsPath` works on: `entry.as_path` when it is an
array, otherwise `entry.as_path.value` when that is an array. -/
def asPathValues (entry : Json) : Option (List Json) :=
  match entry.get "as_path" with
  | some (.arr xs) => some xs
  | some j =>
      match j.get "value" with
      | some (.arr xs) => some xs
      | _ => none
  | none => none

/-- One member of the path mapped as in `normalizeAsPath`: numbers and strings
stringified, everything else `null`. -/
def asPathPart : Json → Option String
  | .num n => some (toString n)
  | .str s => some s
  | _ => none

/-- `normalizeAsPath` from `src/utils/ris.ts`. -/
def normalizeAsPath (entry : Json) : Option String :=
  match asPathValues entry with
  | none => none
  | some values =>
      let parts := (values.filterMap asPathPart).filter (fun s => s != "")
      if parts.length > 0 then some (String.intercalate " " parts) else none

/-- `inferOriginAs` from `src/utils/ris.ts` (`none` models the TS `null`). -/
def inferOriginAs (entry : Json) : Option Int :=
  match entry.get "origin" with
  | some (.num n) => some n
  | _ =>
      let path : List Json :=
        match entry.get "as_path" with
        | some (.arr xs) => xs
        | _ => []
      match path.getLast? with
      | some (.num n) => some n
      | some .null => parseIntJS ""
      | some j => parseIntJS (jsToString j)
      | none => parseIntJS ""

/-- `coerceAsn` from `src/utils/ris.ts`, on a possibly-missing field value. -/
def coerceAsn (value : Option Json) : Option Int :=
  match value with
  | some (.num n) => some n
  | some (.str s) => parseIntJS s
  | _ => none

/-- The frame-level values shared by every update extracted from one envelope
(`baseTimestamp`, `receivedAt`, `peer`, `host`, `peerAsn`, `originAsData`). -/
structure FrameContext where
  baseTimestamp : Int
  receivedAt : Int
  peer : String
  host : Option String
  peerAsn : Option Int
  originAsData : Option Int
deriving Repr, DecidableEq

/-- Frame-level extraction in `extractUpdates`, with `Date.now()` passed as
`now`.  A `timestamp` of `0` is falsy in JS and falls back to `now`. -/
def frameContext (data : Json) (now : Int) : FrameContext :=
  let baseTimestamp : Int :=
    match data.get "timestamp" with
    | some (.num t) => if t = 0 then now else t * 1000
    | _ => now
  { baseTimestamp := baseTimestamp
    receivedAt := now
    peer := match data.get "peer" with
            | some (.str s) => s
            | _ => "unknown"
    host := match data.get "host" with
            | some (.str s) => some s
            | _ => none
    peerAsn := coerceAsn (data.get "peer_asn")
    originAsData := coerceAsn (data.get "origin_asn") }

/-- The `next_hop` extraction of the announcement loop of `extractUpdates`. -/
def entryNextHop (entry : Json) : Option String :=
  match entry.get "next_hop" with
  | some (.str s) => some s
  | _ => none

/-- The announcement loop body of `extractUpdates`: one `RipeUpdate` per
normalized prefix of the entry. -/
def announceUpdates (fc : FrameContext) (entry : Json) : List RipeUpdate :=
  let nextHop := entryNextHop entry
  let asPath := normalizeAsPath entry
  let originAs := (inferOriginAs entry).orElse (fun _ => fc.originAsData)
  (normalizePrefixes entry).map (fun p =>
    { kind := .announce
      timestamp := fc.baseTimestamp
      receivedAt := fc.receivedAt
      pfx := p
      peer := fc.peer
      host := fc.host
      peerAsn := fc.peerAsn
      originAs := originAs
      nextHop := nextHop
      asPath := asPath })

/-- The withdrawal loop body of `extractUpdates`: a bare string entry or an
object with a string `prefix`; a falsy (empty or missing) prefix is skipped. -/
def withdrawUpdate (fc : FrameContext) (entry : Json) : Option RipeUpdate :=
  let p? : Option String :=
    match entry with
    | .str s => some s
    | _ =>
        match entry.get "prefix" with
        | some (.str s) => some s
        | _ => none
  match p? with
  | some p =>
      if p = "" then none
      else some
        { kind := .withdraw
          timestamp := fc.baseTimestamp
          receivedAt := fc.receivedAt
          pfx := p
          peer := fc.peer
          host := fc.host
          peerAsn := fc.peerAsn
          originAs := fc.originAsData
          nextHop := none
          asPath := none }
  | none => none

/-- The `announcements` array of a data object (empty when absent or not an
array). -/
def announcementsArr (data : Json) : List Json :=
  match data.get "announcements" with
  | some (.arr xs) => xs
  | _ => []

/-- The `withdrawals` array of a data object (empty when absent or not an
array). -/
def withdrawalsArr (data : Json) : List Json :=
  match data.get "withdrawals" with
  | some (.arr xs) => xs
  | _ => []

/-- `extractUpdates` from `src/utils/ris.ts` (the spec's `normalize`), with
`Date.now()` passed as `now`. -/
def extractUpdates (raw : Json) (now : Int) : List RipeUpdate :=
  if !raw.truthy || !raw.isObjectType then []
  else
    match raw.get "type", raw.get "data" with
    | some (.str t), some data =>
        if t ≠ "ris_message" || !data.truthy then []
        else
          let fc := frameContext data now
          (announcementsArr data).flatMap (announceUpdates fc)
            ++ (withdrawalsArr data).filterMap (withdrawUpdate fc)
    | _, _ => []

/-- The envelope guard of `extractUpdates` as a single predicate: a truthy
object-typed value whose `type` field is the string `"ris_message"` and whose
`data` field is present and truthy. -/
def recognizedEnvelope (raw : Json) : Bool :=
  raw.truthy && raw.isObjectType &&
    (match raw.get "type" with
     | some (.str t) => t = "ris_message"
     | _ => false) &&
    (match raw.get "data" with
     | some d => d.truthy
     | none => false)

/-- The explicitly supplied numeric `origin` field of an announcement entry,
exactly as `inferOriginAs` reads it (`typeof entry?.origin === "number"`). -/
def numericOrigin (entry : Json) : Option Int :=
  match entry.get "origin" with
  | some (.num n) => some n
  | _ => none

/-! ## Graph Aggregator (`src/workers/graphWorker.ts`) -/

/-- Node categories of `GraphNodePayload.type`; the TS string `"prefix"` is the
constructor `pfx` (its TS name is a Lean keyword). -/
inductive NodeType where
  | peer : NodeType
  | pfx : NodeType
  | origin : NodeType
deriving Repr, DecidableEq, Inhabited

/-- The TS string value of a node type. -/
def NodeType.asString : NodeType → String
  | .peer => "peer"
  | .pfx => "prefix"
  | .origin => "origin"

/-- Link relations of `GraphLinkPayload.relation`. -/
inductive Relation where
  | peerPfx : Relation
  | originPfx : Relation
  | peerOrigin : Relation
deriving Repr, DecidableEq, Inhabited

/-- The TS string value of a relation. -/
def Relation.asString : Relation → String
  | .peerPfx => "peer-prefix"
  | .originPfx => "origin-prefix"
  | .peerOrigin => "peer-origin"

/-- The TS string value of an update kind. -/
def UpdateKind.asString : UpdateKind → String
  | .announce => "announce"
  | .withdraw => "withdraw"

/-- `NodeAccumulator` from `graphWorker.ts` (`count` is the spec's
`occurrenceCount`). -/
structure NodeAccumulator where
  id : String
  label : String
  type : NodeType
  count : Nat
deriving Repr, DecidableEq, Inhabited

/-- `LinkAccumulator` from `graphWorker.ts`. -/
structure LinkAccumulator where
  source : String
  target : String
  kind : UpdateKind
  relation : Relation
  count : Nat
deriving Repr, DecidableEq, Inhabited

/-- `GraphPayload` from `workers/messages.ts`; the payload entries have exactly
the accumulator fields, so the accumulator structures are reused. -/
structure GraphPayload where
  nodes : List NodeAccumulator
  links : List LinkAccumulator
deriving Repr, DecidableEq, Inhabited

/-- `makeNodeKey` from `graphWorker.ts`. -/
def makeNodeKey (t : NodeType) (identifier : String) : String :=
  t.asString ++ ":" ++ identifier

/-- `trackLink`'s map key. -/
def makeLinkKey (source target : String) (kind : UpdateKind) (relation : Relation) : String :=
  source ++ "->" ++ target ++ ":" ++ relation.asString ++ ":" ++ kind.asString

/-- A JS `Map` in insertion order: an association list, updated in place and
extended at the tail. -/
abbrev NodeMap := List (String × NodeAccumulator)

/-- The link map of `buildGraph`. -/
abbrev LinkMap := List (String × LinkAccumulator)

/-- Increment the `count` of the entry stored at `key` (the `existing.count += 1`
branch of `trackNode`); insertion order is unchanged. -/
def bumpNodeCount : NodeMap → String → NodeMap
  | [], _ => []
  | (k, e) :: rest, key =>
      if k = key then (k, { e with count := e.count + 1 }) :: rest
      else (k, e) :: bumpNodeCount rest key

/-- `trackNode` from `graphWorker.ts`; returns the updated map and the tracked
node's `id` (the only accumulator field the caller reads). -/
def trackNode (m : NodeMap) (t : NodeType) (identifier label : String) :
    NodeMap × String :=
  if (m.lookup (makeNodeKey t identifier)).isSome then
    (bumpNodeCount m (makeNodeKey t identifier), makeNodeKey t identifier)
  else
    (m ++ [(makeNodeKey t identifier,
            { id := makeNodeKey t identifier, label := label, type := t,
              count := 1 })],
     makeNodeKey t identifier)

/-- Increment the `count` of the link stored at `key`. -/
def bumpLinkCount : LinkMap → String → LinkMap
  | [], _ => []
  | (k, e) :: rest, key =>
      if k = key then (k, { e with count := e.count + 1 }) :: rest
      else (k, e) :: bumpLinkCount rest key

/-- `trackLink` from `graphWorker.ts`. -/
def trackLink (m : LinkMap) (source target : String) (kind : UpdateKind)
    (relation : Relation) : LinkMap :=
  if (m.lookup (makeLinkKey source target kind relation)).isSome then
    bumpLinkCount m (makeLinkKey source target kind relation)
  else
    m ++ [(makeLinkKey source target kind relation,
           { source := source, target := target, kind := kind,
             relation := relation, count := 1 })]

/-- The loop body of `buildGraph` for one update (`r₁`, `r₂`, `r₃` are the
peer, prefix and origin `trackNode` results; the second pair component is the
tracked node's id). -/
def buildStep (acc : NodeMap × LinkMap) (update : RipeUpdate) : NodeMap × LinkMap :=
  let r₁ := trackNode acc.1 .peer update.peer update.peer
  let r₂ := trackNode r₁.1 .pfx update.pfx update.pfx
  let lm₁ := trackLink acc.2 r₁.2 r₂.2 update.kind .peerPfx
  match update.originAs with
  | some n =>
      let originLabel := "AS" ++ toString n
      let r₃ := trackNode r₂.1 .origin (toString n) originLabel
      let lm₂ := trackLink lm₁ r₃.2 r₂.2 update.kind .originPfx
      let lm₃ := trackLink lm₂ r₁.2 r₃.2 update.kind .peerOrigin
      (r₃.1, lm₃)
  | none => (r₂.1, lm₁)

/-- `buildGraph` from `graphWorker.ts`. -/
def buildGraph (updates : List RipeUpdate) : GraphPayload :=
  let (nm, lm) := updates.foldl buildStep ([], [])
  { nodes := nm.map (fun e => e.2), links := lm.map (fun e => e.2) }

/-- The node ids stored in a node map. -/
def nodeIds (nm : NodeMap) : List String :=
  nm.map (fun p => p.2.id)

/-- The identity quadruple of a link (`(source, target, relation, kind)`),
which the spec declares to be the link identity. -/
def linkQuad (l : LinkAccumulator) : String × String × Relation × UpdateKind :=
  (l.source, l.target, l.relation, l.kind)

/-- The map key determined by a link identity quadruple. -/
def quadKey (q : String × String × Relation × UpdateKind) : String :=
  makeLinkKey q.1 q.2.1 q.2.2.2 q.2.2.1

/-- Node-map invariant: keys are pairwise distinct and every stored
accumulator's `id` is its key. -/
def NodeMapInv (nm : NodeMap) : Prop :=
  (nm.map Prod.fst).Nodup ∧ ∀ p ∈ nm, p.2.id = p.1

/-- Link-map invariant (relative to a node map): keys are pairwise distinct,
every stored link's key is the one its quadruple determines, and both
endpoints are ids of tracked nodes. -/
def LinkMapInv (nm : NodeMap) (lm : LinkMap) : Prop :=
  (lm.map Prod.fst).Nodup ∧
  ∀ p ∈ lm, quadKey (linkQuad p.2) = p.1 ∧
    p.2.source ∈ nodeIds nm ∧ p.2.target ∈ nodeIds nm

/-! ## Staleness guard (`src/hooks/useGraphData.ts`)

`requestCounterRef` / `latestRequestRef` are both set to the same value by
`nextRequestId`, so a single counter models them; `handleMessage` compares an
arriving response's `requestId` against that counter and otherwise leaves the
displayed graph unchanged. -/

/-- The orchestrator state of `useGraphData`: the request counter (the highest
`requestId` issued so far) and the displayed graph. -/
structure OrchestratorState where
  counter : Nat
  displayed : GraphPayload
deriving Repr, DecidableEq, Inhabited

/-- Initial orchestrator state (`requestCounterRef.current = 0`,
`graph = EMPTY_GRAPH`). -/
def initialOrchestrator : OrchestratorState :=
  { counter := 0, displayed := { nodes := [], links := [] } }

/-- Orchestrator events: issuing a request (`nextRequestId`) and receiving a
graph response. -/
inductive GraphEvent where
  | issue : GraphEvent
  | response : Nat → GraphPayload → GraphEvent
deriving Repr, DecidableEq, Inhabited

/-- One orchestrator transition: `issue` is `nextRequestId`; `response rid g`
is `handleMessage` on a `graph` message, which discards the payload unless
`rid` equals the highest issued id. -/
def orchestratorStep (s : OrchestratorState) : GraphEvent → OrchestratorState
  | .issue => { s with counter := s.counter + 1 }
  | .response rid g => if rid = s.counter then { s with displayed := g } else s

/-- Run the orchestrator over a sequence of events. -/
def runOrchestrator (s : OrchestratorState) (events : List GraphEvent) : OrchestratorState :=
  events.foldl orchestratorStep s

/-! ## Bounded in-memory window (`src/hooks/useRipeRis.ts`) -/

/-- The `updates` branch of `handleFetchMessage`: a non-empty batch is
prepended to the window and the result truncated to `limit`. -/
def insertBatch (limit : Nat) (window batch : List RipeUpdate) : List RipeUpdate :=
  if batch.length = 0 then window
  else if (batch ++ window).length ≤ limit then batch ++ window
  else (batch ++ window).take limit

/-- Insert a sequence of batches, oldest first. -/
def insertBatches (limit : Nat) (window : List RipeUpdate)
    (batches : List (List RipeUpdate)) : List RipeUpdate :=
  batches.foldl (insertBatch limit) window

/-! ## Ingestion session reconnect guard (`src/workers/fetchWorker.ts`)

The nullable `reconnectTimer` handle is modelled by `timerCount`, the number of
pending reconnect timers (`0` ↔ the handle is `null`, which the proved
invariant `timerCount ≤ 1` keeps in sync with the single-handle code); `socket`
is modelled by whether a socket object currently exists. -/

/-- The worker-global mutable state of `fetchWorker.ts`. -/
structure SessionState where
  shouldRun : Bool
  socket : Bool
  timerCount : Nat
deriving Repr, DecidableEq, Inhabited

/-- Initial session state (`socket = null`, `shouldRun = false`,
`reconnectTimer = null`). -/
def initialSession : SessionState :=
  { shouldRun := false, socket := false, timerCount := 0 }

/-- `scheduleReconnect`: guarded by `shouldRun` and by the timer handle being
`null`; arms exactly one new timer otherwise. -/
def scheduleReconnect (s : SessionState) : SessionState :=
  if !s.shouldRun || s.timerCount ≠ 0 then s
  else { s with timerCount := s.timerCount + 1 }

/-- `clearReconnectTimer`: cancels the pending timer, if any. -/
def clearReconnectTimer (s : SessionState) : SessionState :=
  { s with timerCount := 0 }

/-- `teardownSocket`: detaches and closes the current socket, if any. -/
def teardownSocket (s : SessionState) : SessionState :=
  { s with socket := false }

/-- `connect`: no-op when a socket exists or the session is stopped; otherwise
socket construction either succeeds (`ok = true`) or throws, in which case
`scheduleReconnect` runs. -/
def connect (ok : Bool) (s : SessionState) : SessionState :=
  if s.socket || !s.shouldRun then s
  else if ok then { s with socket := true }
  else scheduleReconnect s

/-- Externally observable session events: the worker commands `start`, `stop`,
`reconnect`, the socket's `onclose` callback, and the reconnect timer firing
(`ok` is the outcome of the socket construction a successful event attempts). -/
inductive SessionEvent where
  | start : Bool → SessionEvent
  | stop : SessionEvent
  | reconnectCmd : Bool → SessionEvent
  | socketClosed : SessionEvent
  | timerFired : Bool → SessionEvent
deriving Repr, DecidableEq, Inhabited

/-- One session transition.  `socketClosed` fires only when a socket exists
(`teardownSocket` nulls the handlers of a discarded socket); `timerFired` fires
only when a timer is pending, nulls the handle, and reconnects if still
running. -/
def sessionStep (s : SessionState) : SessionEvent → SessionState
  | .start ok =>
      if s.shouldRun then s
      else connect ok (clearReconnectTimer { s with shouldRun := true })
  | .stop => teardownSocket (clearReconnectTimer { s with shouldRun := false })
  | .reconnectCmd ok =>
      connect ok (teardownSocket (clearReconnectTimer { s with shouldRun := true }))
  | .socketClosed =>
      if s.socket then
        let s' := { s with socket := false }
        if s'.shouldRun then scheduleReconnect s' else s'
      else s
  | .timerFired ok =>
      if s.timerCount = 0 then s
      else
        let s' := { s with timerCount := s.timerCount - 1 }
        if s'.shouldRun then connect ok s' else s'

/-- Run the session from the initial state over a sequence of events. -/
def runSession (events : List SessionEvent) : SessionState :=
  events.foldl sessionStep initialSession

/-! ## Spec-side definition for the AS-path refinement claim -/

/-- Modelled from the spec: _"the path attribute may itself be one flat
sequence or nested sequences …; flatten to a single ordered sequence of
integers, discard non-integer members"_.  This is the spec's described
flattening, to be compared with the source's `normalizeAsPath`. -/
def specFlattenAsPath (j : Json) : List Int :=
  match j with
  | .arr xs =>
      xs.flatMap (fun x =>
        match x with
        | .num n => [n]
        | .arr ys =>
            ys.filterMap (fun y =>
              match y with
              | .num n => some n
              | _ => none)
        | _ => [])
  | .num n => [n]
  | _ => []

/-! ## Concrete inputs used by witnesses and counterexamples -/

/-- A concrete frame context for witnesses. -/
def sampleFc : FrameContext :=
  { baseTimestamp := 0, receivedAt := 0, peer := "peer", host := none,
    peerAsn := none, originAsData := none }

/-- A concrete update record for window witnesses. -/
def sampleUpdate (tag : String) : RipeUpdate :=
  { kind := .withdraw, timestamp := 0, receivedAt := 0, pfx := tag,
    peer := "peer", host := none, peerAsn := none, originAs := none,
    nextHop := none, asPath := none }

/-- A `ris_message` envelope around a list of announcement entries. -/
def risEnvelope (entries : List Json) : Json :=
  Json.obj [("type", Json.str "ris_message"),
            ("data", Json.obj [("peer", Json.str "192.0.2.1"),
                               ("announcements", Json.arr entries)])]

/-- An announcement entry whose `prefix` field repeats inside `prefixes` and
whose `prefixes` array holds a duplicate and a non-string member. -/
def c10entry : Json :=
  Json.obj [("prefix", Json.str "10.0.0.0/8"),
            ("prefixes", Json.arr [Json.str "10.0.0.0/8", Json.num 4,
                                   Json.str "10.0.0.0/8",
                                   Json.str "192.0.2.0/24"])]

/-- An announcement entry with both an explicit numeric `origin` field and a
non-empty integer `as_path`. -/
def c1entry : Json :=
  Json.obj [("prefix", Json.str "203.0.113.0/24"),
            ("origin", Json.num 7),
            ("as_path", Json.arr [Json.num 2, Json.num 3])]

/-- `c1entry` without the explicit `origin` field. -/
def c1entryNoOrigin : Json :=
  Json.obj [("prefix", Json.str "203.0.113.0/24"),
            ("as_path", Json.arr [Json.num 2, Json.num 3])]

/-- An `as_path` attribute holding a non-integer string member and a nested
segment — the spec's flattening keeps `[1]`, the code keeps `"foo"`. -/
def c3entry : Json :=
  Json.obj [("as_path", Json.arr [Json.str "foo", Json.arr [Json.num 1]])]

/-- An `as_path` attribute whose members are all nested sequences. -/
def c3entryNested : Json :=
  Json.obj [("as_path", Json.arr [Json.arr [Json.num 1], Json.arr [Json.num 2]])]

/-- A flat two-hop integer `as_path` attribute. -/
def c3entryFlat : Json :=
  Json.obj [("as_path", Json.arr [Json.num 65000, Json.num 64496])]

/-- The spec's end-to-end envelope, exactly as written in the spec
(`type:"data"`). -/
def c6specEnv : Json :=
  Json.obj [("type", Json.str "data"),
            ("data", Json.obj [("timestamp", Json.num 1716660000),
                               ("peer", Json.str "192.0.2.1"),
                               ("peer_asn", Json.str "65000"),
                               ("announcements", Json.arr [
                                  Json.obj [("prefix", Json.str "203.0.113.0/24"),
                                            ("next_hop", Json.str "192.0.2.254"),
                                            ("as_path", Json.arr [Json.num 65000,
                                                                  Json.num 64496])]])])]

/-- The spec's end-to-end envelope with the recognized `type:"ris_message"`
discriminator (the form the repository's own test uses). -/
def c6risEnv : Json :=
  Json.obj [("type", Json.str "ris_message"),
            ("data", Json.obj [("timestamp", Json.num 1716660000),
                               ("peer", Json.str "192.0.2.1"),
                               ("peer_asn", Json.str "65000"),
                               ("announcements", Json.arr [
                                  Json.obj [("prefix", Json.str "203.0.113.0/24"),
                                            ("next_hop", Json.str "192.0.2.254"),
                                            ("as_path", Json.arr [Json.num 65000,
                                                                  Json.num 64496])]])])]

/-- The empty graph payload. -/
def sampleGraphA : GraphPayload := { nodes := [], links := [] }

/-- A one-node graph payload, distinguishable from `sampleGraphA`. -/
def sampleGraphB : GraphPayload :=
  { nodes := [{ id := "peer:p", label := "p", type := .peer, count := 1 }],
    links := [] }

/-! ## Helper lemmas -/

theorem mem_insertUnique {acc : List String} {s x : String} :
    x ∈ insertUnique acc s ↔ x ∈ acc ∨ x = s := by
  unfold insertUnique
  by_cases h : s ∈ acc
  · simp only [if_pos h]
    constructor
    · exact Or.inl
    · rintro (hx | rfl) <;> assumption
  · simp [if_neg h]

theorem nodup_insertUnique {acc : List String} (s : String) (h : acc.Nodup) :
    (insertUnique acc s).Nodup := by
  unfold insertUnique
  by_cases hs : s ∈ acc
  · simpa [if_pos hs] using h
  · simp [if_neg hs, List.nodup_append, h, hs]

theorem nodup_foldl_insertUnique (xs : List String) :
    ∀ acc : List String, acc.Nodup → (xs.foldl insertUnique acc).Nodup := by
  induction xs with
  | nil => intro acc h; exact h
  | cons y ys ih => intro acc h; exact ih _ (nodup_insertUnique y h)

theorem mem_foldl_insertUnique (xs : List String) :
    ∀ (acc : List String) (x : String),
      x ∈ xs.foldl insertUnique acc ↔ x ∈ acc ∨ x ∈ xs := by
  induction xs with
  | nil => simp
  | cons y ys ih =>
      intro acc x
      rw [List.foldl_cons, ih, mem_insertUnique, List.mem_cons]
      tauto

theorem dedupFirst_nodup (xs : List String) : (dedupFirst xs).Nodup :=
  nodup_foldl_insertUnique xs [] List.nodup_nil

theorem mem_dedupFirst {xs : List String} {x : String} :
    x ∈ dedupFirst xs ↔ x ∈ xs := by
  simp [dedupFirst, mem_foldl_insertUnique]

theorem map_constant {α β : Type} (l : List α) (f : α → β) (c : β)
    (h : ∀ a, f a = c) : l.map f = List.replicate l.length c := by
  induction l with
  | nil => rfl
  | cons a l ih => simp [h, ih, List.replicate_succ]

/-- On a recognized envelope, `extractUpdates` is the concatenation of the
per-announcement updates and the per-withdrawal updates. -/
theorem extractUpdates_recognized (fs : List (String × Json)) (d : Json) (now : Int)
    (htype : Json.get (.obj fs) "type" = some (.str "ris_message"))
    (hdata : Json.get (.obj fs) "data" = some d)
    (ht : d.truthy = true) :
    extractUpdates (.obj fs) now =
      (announcementsArr d).flatMap (announceUpdates (frameContext d now))
        ++ (withdrawalsArr d).filterMap (withdrawUpdate (frameContext d now)) := by
  unfold extractUpdates
  simp only [show (Json.obj fs).truthy = true from rfl,
    show (Json.obj fs).isObjectType = true from rfl, htype, hdata, ht]
  simp

/-- Every update produced by the announcement loop for `entry` carries
`(inferOriginAs entry).orElse`-of-the-frame-fallback as its `originAs`. -/
theorem announceUpdates_originAs (fc : FrameContext) (entry : Json) :
    (announceUpdates fc entry).map RipeUpdate.originAs =
      List.replicate (normalizePrefixes entry).length
        ((inferOriginAs entry).orElse (fun _ => fc.originAsData)) := by
  unfold announceUpdates
  rw [List.map_map]
  exact map_constant _ _ _ (fun a => rfl)

theorem jsonStr?_eq_some {j : Json} {p : String} :
    jsonStr? j = some p ↔ j = .str p := by
  cases j <;> simp [jsonStr?]

theorem filterMap_asPathPart_nums (ns : List Int) :
    (ns.map Json.num).filterMap asPathPart = ns.map (fun n => toString n) := by
  rw [List.filterMap_map]
  induction ns with
  | nil => rfl
  | cons a l ih => simp [List.filterMap_cons, Function.comp, asPathPart, ih]

theorem toDigitsCore_length_ge (b : Nat) :
    ∀ (f n : Nat) (acc : List Char), acc.length ≤ (Nat.toDigitsCore b f n acc).length := by
  intro f
  induction f with
  | zero => intro n acc; simp [Nat.toDigitsCore]
  | succ f ih =>
      intro n acc
      rw [Nat.toDigitsCore]
      split
      · simp
      · exact le_trans (by simp) (ih (n / b) (Nat.digitChar (n % b) :: acc))

theorem toDigitsCore_ne_nil (b f n : Nat) (hf : f ≠ 0) :
    Nat.toDigitsCore b f n [] ≠ [] := by
  cases f with
  | zero => exact absurd rfl hf
  | succ f =>
      rw [Nat.toDigitsCore]
      split
      · simp
      · intro h
        have := toDigitsCore_length_ge b f (n / b) (Nat.digitChar (n % b) :: [])
        rw [h] at this
        simp at this

theorem natRepr_ne_empty (n : Nat) : Nat.repr n ≠ "" := by
  show (Nat.toDigits 10 n).asString ≠ ""
  intro h
  have hnil : Nat.toDigits 10 n = [] := by
    have := congrArg String.data h
    simpa [List.asString] using this
  exact toDigitsCore_ne_nil 10 (n + 1) n (Nat.succ_ne_zero n) hnil

theorem intToString_ne_empty (n : Int) : toString n ≠ "" := by
  show Int.repr n ≠ ""
  cases n with
  | ofNat m => exact natRepr_ne_empty m
  | negSucc m =>
      show "-" ++ Nat.repr (m + 1) ≠ ""
      intro h
      have := congrArg String.length h
      simp [String.length_append] at this
      exact absurd this.1 (by decide)

/-! ## Claims -/

/-- **C7.** For every raw frame that is not a recognized `ris_message` data
envelope — including non-object values and frames without a (truthy) `data`
field — `extractUpdates` returns the empty sequence; being a total function,
it raises no error. -/
theorem claim7_unrecognized_frames_ignored (raw : Json) (now : Int)
    (h : recognizedEnvelope raw = false) : extractUpdates raw now = [] := by
  unfold recognizedEnvelope at h
  unfold extractUpdates
  split
  · rfl
  next hguard =>
    split
    · next t data heqt heqd =>
        split
        · rfl
        · next hif =>
            exfalso
            simp only [Bool.or_eq_true, Bool.not_eq_true'] at hguard
            push_neg at hguard
            simp only [heqt, heqd, Bool.and_eq_true, decide_eq_true_eq] at h
            simp only [ne_eq, Bool.or_eq_true, decide_eq_true_eq,
              Bool.not_eq_true'] at hif
            push_neg at hif
            rcases hif with ⟨ht, hd⟩
            rcases hguard with ⟨h1, h2⟩
            simp [h1, h2, ht, hd] at h
    · rfl

/-- **C7 witness.** A heartbeat-style control frame (`{type:"ping"}`) is
silently ignored. -/
theorem claim7_witness :
    recognizedEnvelope (Json.obj [("type", Json.str "ping")]) = false ∧
      extractUpdates (Json.obj [("type", Json.str "ping")]) 0 = [] :=
  ⟨rfl, claim7_unrecognized_frames_ignored _ 0 rfl⟩

/-- **C10.** Within a single announcement entry, `extractUpdates` emits at most
one update per distinct prefix string: the per-entry updates carry pairwise
distinct prefixes, there is exactly one update per normalized prefix, and a
string appears among the normalized prefixes iff it is the entry's `prefix`
field or a string member of its `prefixes` array (non-string members
contribute nothing). -/
theorem claim10_per_entry_prefix_dedup (fc : FrameContext) (entry : Json) :
    ((announceUpdates fc entry).map RipeUpdate.pfx).Nodup ∧
    (announceUpdates fc entry).map RipeUpdate.pfx = normalizePrefixes entry ∧
    (∀ p : String,
      p ∈ normalizePrefixes entry ↔
        entry.get "prefix" = some (.str p) ∨ Json.str p ∈ prefixesArr entry) := by
  have hmap : (announceUpdates fc entry).map RipeUpdate.pfx = normalizePrefixes entry := by
    unfold announceUpdates
    rw [List.map_map]
    exact List.map_id _
  refine ⟨?_, hmap, ?_⟩
  · rw [hmap]
    unfold normalizePrefixes
    exact dedupFirst_nodup _
  · intro p
    unfold normalizePrefixes
    rw [mem_dedupFirst, List.mem_append, List.mem_filterMap]
    constructor
    · rintro (hf | ⟨j, hj, hjs⟩)
      · left
        cases hg : entry.get "prefix" with
        | none => simp [hg] at hf
        | some j =>
            cases j <;> simp_all
      · right
        rw [jsonStr?_eq_some] at hjs
        exact hjs ▸ hj
    · rintro (hf | ha)
      · left
        simp [hf]
      · right
        exact ⟨Json.str p, ha, rfl⟩

/-- **C10 witness.** On `c10entry` the emitted prefixes are pairwise distinct
and `"10.0.0.0/8"` is normalized exactly because it occurs as the `prefix`
field or in the `prefixes` array. -/
theorem claim10_witness :
    ((announceUpdates sampleFc c10entry).map RipeUpdate.pfx).Nodup ∧
    ("10.0.0.0/8" ∈ normalizePrefixes c10entry ↔
      c10entry.get "prefix" = some (.str "10.0.0.0/8") ∨
        Json.str "10.0.0.0/8" ∈ prefixesArr c10entry) :=
  ⟨(claim10_per_entry_prefix_dedup sampleFc c10entry).1,
   (claim10_per_entry_prefix_dedup sampleFc c10entry).2.2 "10.0.0.0/8"⟩

/-- **C1 counterexample.** In `c1entry` the AS-path attribute flattens to the
non-empty integer sequence `2 3` (last integer `3`), yet the single update
`extractUpdates` emits for it has `originAs = 7`: the explicitly supplied
`origin` field is used even though the flattened path is non-empty, refuting
the claim that it is used only when the path is empty. -/
theorem claim1_counterexample :
    normalizeAsPath c1entry = some "2 3" ∧
    (extractUpdates (risEnvelope [c1entry]) 0).map RipeUpdate.originAs = [some 7] ∧
    (7 : Int) ≠ 3 := by
  refine ⟨by decide, by decide, by decide⟩

/-- **C1 (amended).** Origin inference for an announcement entry: an
explicitly supplied numeric `origin` field always takes priority, whether or
not the path is empty; only when that field is absent (or not a number) and
the `as_path` attribute is an array whose last member is the integer `n` does
every update emitted for the entry get `originAs = n`. -/
theorem claim1_amended_origin_priority (fc : FrameContext) (entry : Json) :
    (∀ m : Int, numericOrigin entry = some m →
      (announceUpdates fc entry).map RipeUpdate.originAs =
        List.replicate (normalizePrefixes entry).length (some m)) ∧
    (∀ (xs : List Json) (n : Int), numericOrigin entry = none →
      entry.get "as_path" = some (.arr xs) → xs.getLast? = some (.num n) →
      (announceUpdates fc entry).map RipeUpdate.originAs =
        List.replicate (normalizePrefixes entry).length (some n)) := by
  constructor
  · intro m hm
    rw [announceUpdates_originAs]
    have hio : inferOriginAs entry = some m := by
      unfold numericOrigin at hm
      unfold inferOriginAs
      cases hg : entry.get "origin" with
      | none => simp [hg] at hm
      | some j => cases j <;> simp_all
    rw [hio]
    rfl
  · intro xs n hm hpath hlast
    rw [announceUpdates_originAs]
    have hio : inferOriginAs entry = some n := by
      unfold numericOrigin at hm
      unfold inferOriginAs
      cases hg : entry.get "origin" with
      | none => simp [hg, hpath, hlast]
      | some j => cases j <;> simp_all [hpath, hlast]
    rw [hio]
    rfl

/-- **C1 witness.** On `c1entry` the explicit origin `7` wins; on
`c1entryNoOrigin` the last path integer `3` is used. -/
theorem claim1_witness :
    (announceUpdates sampleFc c1entry).map RipeUpdate.originAs =
        List.replicate (normalizePrefixes c1entry).length (some 7) ∧
    (announceUpdates sampleFc c1entryNoOrigin).map RipeUpdate.originAs =
        List.replicate (normalizePrefixes c1entryNoOrigin).length (some 3) :=
  ⟨(claim1_amended_origin_priority sampleFc c1entry).1 7 rfl,
   (claim1_amended_origin_priority sampleFc c1entryNoOrigin).2
      [Json.num 2, Json.num 3] 3 rfl rfl rfl⟩

/-- **C2.** A recognized announce frame whose single announcement entry
carries `k` (distinct) prefixes yields exactly `k` updates, one per prefix in
order, all with identical `asPath`, `nextHop`, `originAs`, `peer` and
`host`. -/
theorem claim2_one_update_per_prefix_shared_attrs
    (fs : List (String × Json)) (d entry : Json) (now : Int)
    (htype : Json.get (.obj fs) "type" = some (.str "ris_message"))
    (hdata : Json.get (.obj fs) "data" = some d)
    (ht : d.truthy = true)
    (hann : announcementsArr d = [entry])
    (hw : withdrawalsArr d = []) :
    (extractUpdates (.obj fs) now).length = (normalizePrefixes entry).length ∧
    (extractUpdates (.obj fs) now).map RipeUpdate.pfx = normalizePrefixes entry ∧
    (extractUpdates (.obj fs) now).map
        (fun u => (u.asPath, u.nextHop, u.originAs, u.peer, u.host)) =
      List.replicate (normalizePrefixes entry).length
        (normalizeAsPath entry, entryNextHop entry,
          (inferOriginAs entry).orElse (fun _ => (frameContext d now).originAsData),
          (frameContext d now).peer, (frameContext d now).host) := by
  rw [extractUpdates_recognized fs d now htype hdata ht, hann, hw]
  simp only [List.flatMap_cons, List.flatMap_nil, List.append_nil, List.filterMap_nil]
  refine ⟨?_, ?_, ?_⟩
  · unfold announceUpdates
    simp
  · unfold announceUpdates
    rw [List.map_map]
    exact List.map_id _
  · unfold announceUpdates
    rw [List.map_map]
    exact map_constant _ _ _ (fun a => rfl)

/-- **C2 witness.** A concrete two-prefix announce frame yields two updates
sharing every attribute. -/
theorem claim2_witness :
    (extractUpdates (risEnvelope [c10entry]) 0).length =
        (normalizePrefixes c10entry).length ∧
    (extractUpdates (risEnvelope [c10entry]) 0).map RipeUpdate.pfx =
        normalizePrefixes c10entry := by
  have h := claim2_one_update_per_prefix_shared_attrs
    [("type", Json.str "ris_message"),
     ("data", Json.obj [("peer", Json.str "192.0.2.1"),
                        ("announcements", Json.arr [c10entry])])]
    (Json.obj [("peer", Json.str "192.0.2.1"),
               ("announcements", Json.arr [c10entry])])
    c10entry 0 rfl rfl rfl rfl rfl
  exact ⟨h.1, h.2.1⟩

/-- **C3 counterexample.** On the path attribute
`["foo", [1]]` the spec's flattening keeps the single integer `1` (discarding
the non-integer member `"foo"` and splicing the nested segment), so the
claimed result is `"1"`; the source's `normalizeAsPath` instead keeps the
string member and drops the nested segment, producing `"foo"`. -/
theorem claim3_counterexample :
    normalizeAsPath c3entry = some "foo" ∧
    specFlattenAsPath (Json.arr [Json.str "foo", Json.arr [Json.num 1]]) = [1] ∧
    String.intercalate " " (([1] : List Int).map (fun n => toString n)) = "1" ∧
    ("foo" : String) ≠ "1" := by
  refine ⟨by decide, by decide, by decide, by decide⟩

/-- **C3 (amended).** `normalizeAsPath` treats a path attribute that is a flat
sequence (or an object whose `value` field is one) as the member list; it
keeps number members and non-empty string members (stringified) in order and
discards every other member — nested sequences are dropped, not flattened.
Applied to a non-empty already-flat integer sequence it returns exactly that
sequence joined with single spaces (idempotence). -/
theorem claim3_amended_flattening (entry : Json) :
    (∀ ns : List Int, ns ≠ [] →
      entry.get "as_path" = some (.arr (ns.map Json.num)) →
      normalizeAsPath entry =
        some (String.intercalate " " (ns.map (fun n => toString n)))) ∧
    (∀ xs : List Json, entry.get "as_path" = some (.arr xs) →
      xs.all (fun x => (asPathPart x).isNone) = true →
      normalizeAsPath entry = none) := by
  constructor
  · intro ns hne hpath
    have hv : asPathValues entry = some (ns.map Json.num) := by
      unfold asPathValues
      rw [hpath]
    unfold normalizeAsPath
    rw [hv]
    have hparts : ((ns.map Json.num).filterMap asPathPart).filter (fun s => s != "") =
        ns.map (fun n => toString n) := by
      rw [filterMap_asPathPart_nums, List.filter_eq_self.mpr]
      intro s hs
      rw [List.mem_map] at hs
      obtain ⟨n, _, rfl⟩ := hs
      simpa using intToString_ne_empty n
    simp only [hparts]
    have hlen : 0 < (ns.map (fun n => toString n)).length := by
      rw [List.length_map]
      exact List.length_pos.mpr hne
    simp [hlen, hne]
  · intro xs hpath hall
    have hv : asPathValues entry = some xs := by
      unfold asPathValues
      rw [hpath]
    unfold normalizeAsPath
    rw [hv]
    have hnil : xs.filterMap asPathPart = [] := by
      rw [List.filterMap_eq_nil_iff]
      intro a ha
      have := (List.all_eq_true.mp hall) a ha
      simpa [Option.isNone_iff_eq_none] using this
    simp [hnil]

/-- **C3 witness.** The flat path `[65000, 64496]` normalizes to
`"65000 64496"`; a path of nested segments only normalizes to `undefined`. -/
theorem claim3_witness :
    normalizeAsPath c3entryFlat = some "65000 64496" ∧
    normalizeAsPath c3entryNested = none :=
  ⟨by
    have h := (claim3_amended_flattening c3entryFlat).1 [65000, 64496]
      (by decide) rfl
    simpa using h,
   (claim3_amended_flattening c3entryNested).2
      [Json.arr [Json.num 1], Json.arr [Json.num 2]] rfl (by decide)⟩

/-- **C6 counterexample.** The spec's end-to-end envelope is written with
`type:"data"`; `extractUpdates` recognizes only `type:"ris_message"` (as the
repository's own test exercises), so on the envelope exactly as the spec
writes it no update at all is produced — not one. -/
theorem claim6_counterexample :
    extractUpdates c6specEnv 1716660001000 = [] ∧
    (extractUpdates c6specEnv 1716660001000).length ≠ 1 := by
  refine ⟨by decide, by decide⟩

/-- **C6 (amended).** With the recognized discriminator `type:"ris_message"`,
the spec's end-to-end envelope yields exactly one update with kind `announce`,
`peerAsn = 65000`, `originAs = 64496` and `asPath = "65000 64496"`, and
aggregating that one update alone yields exactly the peer, prefix and origin
nodes and the `PeerPrefix`, `OriginPrefix` and `PeerOrigin` links of kind
`announce`, every node and link with occurrence count 1. -/
theorem claim6_amended_end_to_end :
    extractUpdates c6risEnv 1716660001000 =
      [{ kind := .announce, timestamp := 1716660000000,
         receivedAt := 1716660001000, pfx := "203.0.113.0/24",
         peer := "192.0.2.1", host := none, peerAsn := some 65000,
         originAs := some 64496, nextHop := some "192.0.2.254",
         asPath := some "65000 64496" }] ∧
    buildGraph (extractUpdates c6risEnv 1716660001000) =
      { nodes := [{ id := "peer:192.0.2.1", label := "192.0.2.1",
                    type := .peer, count := 1 },
                  { id := "prefix:203.0.113.0/24", label := "203.0.113.0/24",
                    type := .pfx, count := 1 },
                  { id := "origin:64496", label := "AS64496",
                    type := .origin, count := 1 }],
        links := [{ source := "peer:192.0.2.1",
                    target := "prefix:203.0.113.0/24",
                    kind := .announce, relation := .peerPfx, count := 1 },
                  { source := "origin:64496",
                    target := "prefix:203.0.113.0/24",
                    kind := .announce, relation := .originPfx, count := 1 },
                  { source := "peer:192.0.2.1", target := "origin:64496",
                    kind := .announce, relation := .peerOrigin, count := 1 }] } := by
  refine ⟨by decide, by decide⟩

/-- **C4.** A graph response whose `requestId` is not the highest issued so
far leaves the displayed graph unchanged, from any orchestrator state; in
particular, after issuing two requests, applying the newer response and then
the late older response displays the newer response only. -/
theorem claim4_stale_responses_discarded (s : OrchestratorState) :
    (∀ (rid : Nat) (g : GraphPayload), rid ≠ s.counter →
      orchestratorStep s (.response rid g) = s) ∧
    (∀ g₁ g₂ : GraphPayload,
      (runOrchestrator s
        [.issue, .issue, .response (s.counter + 2) g₂,
         .response (s.counter + 1) g₁]).displayed = g₂) := by
  constructor
  · intro rid g h
    simp [orchestratorStep, h]
  · intro g₁ g₂
    simp [runOrchestrator, orchestratorStep]

/-- **C4 witness.** From the initial state, a response with id `5` (never
issued) is dropped, and the issue-issue-response2-response1 schedule displays
response 2. -/
theorem claim4_witness :
    orchestratorStep initialOrchestrator (.response 5 sampleGraphB) =
        initialOrchestrator ∧
    (runOrchestrator initialOrchestrator
        [.issue, .issue, .response 2 sampleGraphB,
         .response 1 sampleGraphA]).displayed = sampleGraphB :=
  ⟨(claim4_stale_responses_discarded initialOrchestrator).1 5 sampleGraphB
      (by decide),
   (claim4_stale_responses_discarded initialOrchestrator).2
      sampleGraphA sampleGraphB⟩

/-- Truncating after appending a pre-truncated list equals truncating the
plain append. -/
theorem take_append_take {α : Type} (X Y : List α) (n : Nat) :
    (X ++ Y.take n).take n = (X ++ Y).take n := by
  rw [@List.take_append_eq_append_take _ X (Y.take n) n,
    @List.take_append_eq_append_take _ X Y n]
  congr 1
  rw [List.take_take]
  congr 1
  omega

/-- One window insertion, on an in-bounds window, is prepend-then-truncate. -/
theorem insertBatch_eq (limit : Nat) {w : List RipeUpdate} (b : List RipeUpdate)
    (h : w.length ≤ limit) : insertBatch limit w b = (b ++ w).take limit := by
  unfold insertBatch
  split
  · next hb =>
      have hb' : b = [] := List.eq_nil_of_length_eq_zero hb
      subst hb'
      simp [List.take_of_length_le h]
  · split
    · next hle => exact (List.take_of_length_le hle).symm
    · rfl

/-- The window contents after any batch sequence: the newest-first
concatenation, truncated to the limit. -/
theorem insertBatches_eq (limit : Nat) (batches : List (List RipeUpdate)) :
    ∀ w : List RipeUpdate, w.length ≤ limit →
      insertBatches limit w batches = (batches.reverse.flatten ++ w).take limit := by
  induction batches with
  | nil =>
      intro w h
      simp [insertBatches, List.take_of_length_le h]
  | cons b bs ih =>
      intro w h
      unfold insertBatches
      rw [List.foldl_cons, insertBatch_eq limit b h]
      have h' : ((b ++ w).take limit).length ≤ limit := by
        simp [List.length_take]
      have := ih ((b ++ w).take limit) h'
      unfold insertBatches at this
      rw [this, take_append_take]
      congr 1
      rw [List.reverse_cons, List.flatten_append]
      simp

/-- **C5.** After inserting batches totalling `limit + m` updates (`m > 0`)
into an initially empty window, exactly `limit` updates remain, and they are
the most recently received `limit` updates in receipt order, newest batch
first (each batch kept in frame order, as the code prepends whole batches). -/
theorem claim5_window_bounding (limit : Nat) (batches : List (List RipeUpdate))
    (m : Nat) (hm : 0 < m)
    (htot : (batches.map List.length).sum = limit + m) :
    (insertBatches limit [] batches).length = limit ∧
    insertBatches limit [] batches = (batches.reverse.flatten).take limit := by
  have h := insertBatches_eq limit batches [] (by simp)
  rw [List.append_nil] at h
  refine ⟨?_, h⟩
  rw [h, List.length_take]
  have hlen : (batches.reverse.flatten).length = limit + m := by
    rw [List.length_flatten, List.map_reverse, List.sum_reverse, htot]
  omega

/-- **C5 witness.** With limit 2 and batches of sizes 2 and 1 (total `2 + 1`),
the window keeps exactly the newest two updates, newest batch first. -/
theorem claim5_witness :
    (insertBatches 2 [] [[sampleUpdate "a", sampleUpdate "b"], [sampleUpdate "c"]]).length = 2 ∧
    insertBatches 2 [] [[sampleUpdate "a", sampleUpdate "b"], [sampleUpdate "c"]] =
      ([[sampleUpdate "a", sampleUpdate "b"], [sampleUpdate "c"]].reverse.flatten).take 2 :=
  claim5_window_bounding 2 [[sampleUpdate "a", sampleUpdate "b"], [sampleUpdate "c"]]
    1 (by decide) (by decide)

/-- Every session transition preserves "at most one pending reconnect
timer". -/
theorem sessionStep_timer_le (s : SessionState) (e : SessionEvent)
    (h : s.timerCount ≤ 1) : (sessionStep s e).timerCount ≤ 1 := by
  cases e <;>
    simp only [sessionStep, connect, scheduleReconnect, clearReconnectTimer,
      teardownSocket] <;>
    (try split_ifs) <;> simp_all

/-- **C8.** In every reachable session state at most one reconnect timer is
pending, and from any running state with a live socket (and at most one timer
pending), any positive number of close events before the timer fires leaves
exactly one reconnect timer scheduled — later closes do not arm a second
timer. -/
theorem claim8_single_reconnect_timer :
    (∀ events : List SessionEvent, (runSession events).timerCount ≤ 1) ∧
    (∀ (s : SessionState) (n : Nat), s.shouldRun = true → s.socket = true →
      s.timerCount ≤ 1 →
      ((fun st => sessionStep st .socketClosed)^[n + 1] s).timerCount = 1) := by
  constructor
  · intro events
    have hgen : ∀ (es : List SessionEvent) (s : SessionState), s.timerCount ≤ 1 →
        (es.foldl sessionStep s).timerCount ≤ 1 := by
      intro es
      induction es with
      | nil => intro s h; exact h
      | cons e es ih => intro s h; exact ih _ (sessionStep_timer_le s e h)
    exact hgen events initialSession (by decide)
  · intro s n hrun hsock htimer
    have h1 : (sessionStep s .socketClosed).timerCount = 1 ∧
        (sessionStep s .socketClosed).socket = false := by
      simp only [sessionStep, hsock, hrun, scheduleReconnect]
      split_ifs <;> simp_all
      omega
    have hfix : ∀ (k : Nat) (t : SessionState), t.socket = false →
        ((fun st => sessionStep st .socketClosed)^[k] t) = t := by
      intro k
      induction k with
      | zero => intro t ht; rfl
      | succ k ih =>
          intro t ht
          rw [Function.iterate_succ_apply]
          have hnoop : sessionStep t .socketClosed = t := by
            simp [sessionStep, ht]
          rw [hnoop]
          exact ih t ht
    rw [Function.iterate_succ_apply, hfix n _ h1.2]
    exact h1.1

/-- **C8 witness.** A started session seeing two close events has exactly one
timer pending, and from a concrete connected state two consecutive closes
leave exactly one timer. -/
theorem claim8_witness :
    (runSession [.start true, .socketClosed, .socketClosed]).timerCount ≤ 1 ∧
    ((fun st => sessionStep st .socketClosed)^[2]
        ({ shouldRun := true, socket := true, timerCount := 0 } : SessionState)).timerCount = 1 :=
  ⟨claim8_single_reconnect_timer.1 [.start true, .socketClosed, .socketClosed],
   claim8_single_reconnect_timer.2
      { shouldRun := true, socket := true, timerCount := 0 } 1 rfl rfl (by decide)⟩

theorem lookup_isSome_iff {β : Type} {l : List (String × β)} {k : String} :
    (l.lookup k).isSome = true ↔ k ∈ l.map Prod.fst := by
  induction l with
  | nil => simp [List.lookup]
  | cons a t ih =>
      rw [List.map_cons, List.mem_cons]
      cases a with
      | mk a1 a2 =>
          by_cases hk : k = a1
          · subst hk
            simp [List.lookup]
          · simp only [List.lookup, beq_iff_eq, if_neg hk]
            rw [show (k == a1) = false from beq_false_of_ne hk]
            simp [hk, ih]

theorem bumpNodeCount_keys (nm : NodeMap) (key : String) :
    (bumpNodeCount nm key).map Prod.fst = nm.map Prod.fst := by
  induction nm with
  | nil => rfl
  | cons p t ih =>
      cases p with
      | mk k e =>
          unfold bumpNodeCount
          split
          · simp
          · simpa using ih

theorem bumpNodeCount_ids (nm : NodeMap) (key : String) :
    nodeIds (bumpNodeCount nm key) = nodeIds nm := by
  induction nm with
  | nil => rfl
  | cons p t ih =>
      cases p with
      | mk k e =>
          unfold bumpNodeCount
          split
          · simp [nodeIds]
          · simpa [nodeIds] using ih

theorem bumpNodeCount_mem {nm : NodeMap} {key : String} :
    ∀ p ∈ bumpNodeCount nm key, ∃ q ∈ nm, p.1 = q.1 ∧ p.2.id = q.2.id := by
  induction nm with
  | nil => intro p hp; simp [bumpNodeCount] at hp
  | cons a t ih =>
      cases a with
      | mk k e =>
          intro p hp
          unfold bumpNodeCount at hp
          split at hp
          · rcases List.mem_cons.mp hp with h | h
            · exact ⟨(k, e), List.mem_cons_self _ _, by simp [h]⟩
            · exact ⟨p, List.mem_cons_of_mem _ h, rfl, rfl⟩
          · rcases List.mem_cons.mp hp with h | h
            · exact ⟨(k, e), List.mem_cons_self _ _, by simp [h]⟩
            · obtain ⟨q, hq, hq1, hq2⟩ := ih p h
              exact ⟨q, List.mem_cons_of_mem _ hq, hq1, hq2⟩

theorem nodeIds_eq_keys {nm : NodeMap} (h : ∀ p ∈ nm, p.2.id = p.1) :
    nodeIds nm = nm.map Prod.fst :=
  List.map_congr_left h

theorem trackNode_inv (nm : NodeMap) (t : NodeType) (i l : String)
    (h : NodeMapInv nm) :
    NodeMapInv (trackNode nm t i l).1 ∧
    (∀ x ∈ nodeIds nm, x ∈ nodeIds (trackNode nm t i l).1) ∧
    (trackNode nm t i l).2 ∈ nodeIds (trackNode nm t i l).1 := by
  obtain ⟨hkeys, hids⟩ := h
  unfold trackNode
  split
  · next hsome =>
      constructor
      · constructor
        · rw [bumpNodeCount_keys]
          exact hkeys
        · intro p hp
          obtain ⟨q, hq, h1, h2⟩ := bumpNodeCount_mem p hp
          rw [h2, h1]
          exact hids q hq
      · constructor
        · intro x hx
          rw [bumpNodeCount_ids]
          exact hx
        · rw [bumpNodeCount_ids, nodeIds_eq_keys hids]
          exact lookup_isSome_iff.mp hsome
  · next hnone =>
      have hnotin : makeNodeKey t i ∉ nm.map Prod.fst := by
        intro hmem
        exact hnone (lookup_isSome_iff.mpr hmem)
      constructor
      · constructor
        · rw [List.map_append]
          simp [List.nodup_append, hkeys, hnotin]
        · intro p hp
          rcases List.mem_append.mp hp with h | h
          · exact hids p h
          · simp only [List.mem_singleton] at h
            simp [h]
      · constructor
        · intro x hx
          unfold nodeIds at hx ⊢
          rw [List.map_append]
          exact List.mem_append_left _ hx
        · unfold nodeIds
          rw [List.map_append]
          apply List.mem_append_right
          simp

theorem bumpLinkCount_keys (lm : LinkMap) (key : String) :
    (bumpLinkCount lm key).map Prod.fst = lm.map Prod.fst := by
  induction lm with
  | nil => rfl
  | cons p t ih =>
      cases p with
      | mk k e =>
          unfold bumpLinkCount
          split
          · simp
          · simpa using ih

theorem bumpLinkCount_mem {lm : LinkMap} {key : String} :
    ∀ p ∈ bumpLinkCount lm key, ∃ q ∈ lm, p.1 = q.1 ∧ linkQuad p.2 = linkQuad q.2 := by
  induction lm with
  | nil => intro p hp; simp [bumpLinkCount] at hp
  | cons a t ih =>
      cases a with
      | mk k e =>
          intro p hp
          unfold bumpLinkCount at hp
          split at hp
          · rcases List.mem_cons.mp hp with h | h
            · exact ⟨(k, e), List.mem_cons_self _ _, by simp [h, linkQuad]⟩
            · exact ⟨p, List.mem_cons_of_mem _ h, rfl, rfl⟩
          · rcases List.mem_cons.mp hp with h | h
            · exact ⟨(k, e), List.mem_cons_self _ _, by simp [h]⟩
            · obtain ⟨q, hq, hq1, hq2⟩ := ih p h
              exact ⟨q, List.mem_cons_of_mem _ hq, hq1, hq2⟩

theorem trackLink_inv {nm : NodeMap} {lm : LinkMap} (s t : String)
    (k : UpdateKind) (r : Relation) (h : LinkMapInv nm lm)
    (hs : s ∈ nodeIds nm) (ht : t ∈ nodeIds nm) :
    LinkMapInv nm (trackLink lm s t k r) := by
  obtain ⟨hkeys, hmem⟩ := h
  unfold trackLink
  split
  · next hsome =>
      constructor
      · rw [bumpLinkCount_keys]
        exact hkeys
      · intro p hp
        obtain ⟨q, hq, h1, h2⟩ := bumpLinkCount_mem p hp
        obtain ⟨hq1, hq2, hq3⟩ := hmem q hq
        refine ⟨by rw [h2, hq1, h1], ?_, ?_⟩
        · have : p.2.source = q.2.source := congrArg (fun x => x.1) h2
          rw [this]
          exact hq2
        · have : p.2.target = q.2.target := congrArg (fun x => x.2.1) h2
          rw [this]
          exact hq3
  · next hnone =>
      have hnotin : makeLinkKey s t k r ∉ lm.map Prod.fst := by
        intro hmemk
        exact hnone (lookup_isSome_iff.mpr hmemk)
      constructor
      · rw [List.map_append]
        simp [List.nodup_append, hkeys, hnotin]
      · intro p hp
        rcases List.mem_append.mp hp with h | h
        · exact hmem p h
        · simp only [List.mem_singleton] at h
          subst h
          exact ⟨rfl, hs, ht⟩

theorem linkMapInv_mono {nm nm' : NodeMap} {lm : LinkMap}
    (h : LinkMapInv nm lm) (hsub : ∀ x ∈ nodeIds nm, x ∈ nodeIds nm') :
    LinkMapInv nm' lm := by
  obtain ⟨hkeys, hmem⟩ := h
  refine ⟨hkeys, fun p hp => ?_⟩
  obtain ⟨h1, h2, h3⟩ := hmem p hp
  exact ⟨h1, hsub _ h2, hsub _ h3⟩

theorem buildStep_inv {acc : NodeMap × LinkMap} (u : RipeUpdate)
    (h : NodeMapInv acc.1 ∧ LinkMapInv acc.1 acc.2) :
    NodeMapInv (buildStep acc u).1 ∧
      LinkMapInv (buildStep acc u).1 (buildStep acc u).2 := by
  obtain ⟨hn, hl⟩ := h
  obtain ⟨hn₁, hsub₁, hid₁⟩ := trackNode_inv acc.1 .peer u.peer u.peer hn
  obtain ⟨hn₂, hsub₂, hid₂⟩ := trackNode_inv (trackNode acc.1 .peer u.peer u.peer).1
    .pfx u.pfx u.pfx hn₁
  have hid₁' := hsub₂ _ hid₁
  have hl₁ : LinkMapInv (trackNode (trackNode acc.1 .peer u.peer u.peer).1 .pfx u.pfx u.pfx).1
      (trackLink acc.2 (trackNode acc.1 .peer u.peer u.peer).2
        (trackNode (trackNode acc.1 .peer u.peer u.peer).1 .pfx u.pfx u.pfx).2
        u.kind .peerPfx) :=
    trackLink_inv _ _ _ _
      (linkMapInv_mono (linkMapInv_mono hl hsub₁) hsub₂) hid₁' hid₂
  unfold buildStep
  cases horig : u.originAs with
  | none => exact ⟨hn₂, hl₁⟩
  | some n =>
      obtain ⟨hn₃, hsub₃, hid₃⟩ := trackNode_inv
        (trackNode (trackNode acc.1 .peer u.peer u.peer).1 .pfx u.pfx u.pfx).1
        .origin (toString n) ("AS" ++ toString n) hn₂
      refine ⟨hn₃, ?_⟩
      apply trackLink_inv _ _ _ _
        (trackLink_inv _ _ _ _ (linkMapInv_mono hl₁ hsub₃) hid₃ (hsub₃ _ hid₂))
        (hsub₃ _ hid₁') hid₃

theorem foldl_buildStep_inv (updates : List RipeUpdate) :
    ∀ acc : NodeMap × LinkMap, NodeMapInv acc.1 ∧ LinkMapInv acc.1 acc.2 →
      NodeMapInv (updates.foldl buildStep acc).1 ∧
        LinkMapInv (updates.foldl buildStep acc).1 (updates.foldl buildStep acc).2 := by
  induction updates with
  | nil => intro acc h; exact h
  | cons u us ih => intro acc h; exact ih _ (buildStep_inv u h)

/-- **C9.** Every `GraphPayload` produced by `buildGraph` is internally
consistent: node ids are pairwise distinct, links are pairwise distinct in the
identity quadruple `(source, target, relation, kind)`, and the source and
target of every link are ids of nodes contained in the same payload. -/
theorem claim9_payload_internally_consistent (updates : List RipeUpdate) :
    ((buildGraph updates).nodes.map NodeAccumulator.id).Nodup ∧
    ((buildGraph updates).links.map linkQuad).Nodup ∧
    ∀ l ∈ (buildGraph updates).links,
      l.source ∈ (buildGraph updates).nodes.map NodeAccumulator.id ∧
      l.target ∈ (buildGraph updates).nodes.map NodeAccumulator.id := by
  obtain ⟨⟨hkeys, hids⟩, hlkeys, hlmem⟩ :=
    foldl_buildStep_inv updates ([], [])
      ⟨⟨List.nodup_nil, by simp⟩, List.nodup_nil, by simp⟩
  have hnodes : (buildGraph updates).nodes.map NodeAccumulator.id =
      nodeIds (updates.foldl buildStep ([], [])).1 := by
    unfold buildGraph nodeIds
    rw [List.map_map]
    rfl
  refine ⟨?_, ?_, ?_⟩
  · rw [hnodes, nodeIds_eq_keys hids]
    exact hkeys
  · have hq : ((buildGraph updates).links.map linkQuad).map quadKey =
        (updates.foldl buildStep ([], [])).2.map Prod.fst := by
      unfold buildGraph
      rw [List.map_map, List.map_map]
      apply List.map_congr_left
      intro p hp
      exact (hlmem p hp).1
    exact (hq ▸ hlkeys).of_map quadKey
  · intro l hl
    unfold buildGraph at hl
    rw [List.mem_map] at hl
    obtain ⟨p, hp, rfl⟩ := hl
    obtain ⟨_, h2, h3⟩ := hlmem p hp
    rw [hnodes]
    exact ⟨h2, h3⟩

/-- **C9 witness.** On a singleton batch, the payload's node ids are distinct
and the single peer-prefix link's endpoints are node ids of the payload. -/
theorem claim9_witness :
    ((buildGraph [sampleUpdate "a"]).nodes.map NodeAccumulator.id).Nodup ∧
    ({ source := "peer:peer", target := "prefix:a", kind := .withdraw,
       relation := .peerPfx, count := 1 } : LinkAccumulator).source ∈
      (buildGraph [sampleUpdate "a"]).nodes.map NodeAccumulator.id :=
  ⟨(claim9_payload_internally_consistent [sampleUpdate "a"]).1,
   ((claim9_payload_internally_consistent [sampleUpdate "a"]).2.2
      { source := "peer:peer", target := "prefix:a", kind := .withdraw,
        relation := .peerPfx, count := 1 } (by decide)).1⟩

end TopoLens
